import Mathlib

/-!
Shallow embedding of the ISP payment manager (`src/payments.py`).

The program keeps two SQLite tables, `customers` and `payment_history`, and
mutates them through a handful of functions: `add_customer`, `get_customer_by_id`,
`get_payment_history_by_customer_id`, `delete_customer`, `update_pending_amounts`
(the recurring-billing rollover), `record_payment`, and the startup migration
`init_db`.  We embed the database as an explicit state value and each operation
as a pure function on it.

Conventions of the embedding:
* SQLite `REAL` money columns are modelled as `Rat` (the arithmetic the program
  performs on them - addition, subtraction, multiplication by a month count -
  is exact on the values the claims are about).
* Calendar dates are `Date` triples (year, month, day).  The program stores
  dates as `%Y-%m-%d` strings and compares them either as Python `date` objects
  (chronological order) or as SQLite TEXT (lexicographic on the fixed-width
  format, which coincides with chronological order); both are the
  lexicographic order `dateLt` on (year, month, day).
* A stored `internet_renewal_date` column value is a `DateField`: SQL NULL,
  a non-NULL string that `datetime.strptime(s, "%Y-%m-%d")` fails to parse
  (`junk`), or a string that parses to a date (`date d`).  `strptime` only
  accepts real calendar dates, so parsed dates satisfy `Date.Valid`; writes
  performed by the program go through `strftime("%Y-%m-%d")` and re-parse to
  the same date, which the `date` constructor models directly.
* Python's `while` loop in `update_pending_amounts` is embedded with explicit
  fuel (`loopFuel`); `rollSteps` runs it with fuel
  `monthsIdx today + 1 - monthsIdx d`, which the termination theorem proves
  sufficient whenever the start date has a real month number, so the
  out-of-fuel default is never taken on program-reachable inputs.
* `date.replace(month=m+1)` (and the December case `replace(year=y+1, month=1)`)
  raises `ValueError` when the kept day-of-month is invalid in the target
  month; `incMonth` returns `none` there, and the loop propagates it as
  `LoopOut.fail`, modelling the uncaught exception (the `try` in the source
  only guards the initial `strptime`).  An uncaught exception aborts
  `update_pending_amounts` before `conn.commit()`, so no row update of that
  sweep is persisted: the sweep either commits all its updates or none.
-/

structure Date where
  y : Nat
  m : Nat
  d : Nat
deriving DecidableEq, Repr

/-- Python `date` comparison: lexicographic on (year, month, day). -/
def dateLt (a b : Date) : Prop :=
  a.y < b.y ∨ (a.y = b.y ∧ (a.m < b.m ∨ (a.m = b.m ∧ a.d < b.d)))

instance (a b : Date) : Decidable (dateLt a b) := by
  unfold dateLt; infer_instance

/-- Gregorian leap-year rule, as implemented by Python's `datetime`. -/
def isLeap (y : Nat) : Prop := y % 4 = 0 ∧ (y % 100 ≠ 0 ∨ y % 400 = 0)

instance (y : Nat) : Decidable (isLeap y) := by
  unfold isLeap; infer_instance

def daysInMonth (y m : Nat) : Nat :=
  if m = 2 then (if isLeap y then 29 else 28)
  else if m = 4 ∨ m = 6 ∨ m = 9 ∨ m = 11 then 30
  else 31

/-- A date string `strptime` accepts: real month and real day-of-month. -/
def Date.Valid (dt : Date) : Prop :=
  1 ≤ dt.m ∧ dt.m ≤ 12 ∧ 1 ≤ dt.d ∧ dt.d ≤ daysInMonth dt.y dt.m

instance (dt : Date) : Decidable dt.Valid := by
  unfold Date.Valid; infer_instance

/-- The month increment in the rollover loop:
`replace(year=y+1, month=1)` when the month is December, otherwise
`replace(month=m+1)`; `none` models the `ValueError` raised when the kept
day-of-month does not exist in the target month. -/
def incMonth (dt : Date) : Option Date :=
  if dt.m = 12 then
    if dt.d ≤ daysInMonth (dt.y + 1) 1 then some ⟨dt.y + 1, 1, dt.d⟩ else none
  else
    if dt.d ≤ daysInMonth dt.y (dt.m + 1) then some ⟨dt.y, dt.m + 1, dt.d⟩ else none

/-- Linear month index, the termination measure of the rollover loop. -/
def monthsIdx (dt : Date) : Nat := 12 * dt.y + dt.m

/-- Outcome of the `while temp_renewal_date < today` loop:
`ok months_past temp_renewal_date`, or `fail` for an uncaught `ValueError`
from `date.replace`. -/
inductive LoopOut where
  | ok (n : Nat) (f : Date)
  | fail
deriving DecidableEq, Repr

/-- Fuel-indexed embedding of the cycle-advance loop of
`update_pending_amounts`.  The guard is checked before fuel is consumed, so
`none` (fuel exhausted) can only arise after `fuel` executed iterations. -/
def loopFuel : Nat → Nat → Date → Date → Option LoopOut
  | fuel, n, today, dt =>
    if dateLt dt today then
      match fuel with
      | 0 => none
      | fuel' + 1 =>
        match incMonth dt with
        | none => some LoopOut.fail
        | some dt' => loopFuel fuel' (n + 1) today dt'
    else some (LoopOut.ok n dt)

/-- The loop as run by the program, with fuel proven sufficient for every
start date whose month number is at most 12 (in particular every parsed
date), so the `.fail` default of `Option.getD` is never taken there. -/
def rollSteps (today dt : Date) : LoopOut :=
  (loopFuel (monthsIdx today + 1 - monthsIdx dt) 0 today dt).getD LoopOut.fail

/-- A stored `internet_renewal_date` column value. -/
inductive DateField where
  | null
  | junk
  | date (d : Date)
deriving DecidableEq, Repr

/-- A row of the `customers` table (post-migration schema). -/
structure Customer where
  customer_id : Nat
  name : String
  mobile : String
  address : String
  plan_details : String
  per_month_cost : Rat
  internet_renewal_date : DateField
  pending_amount : Rat
deriving DecidableEq, Repr

/-- A row of the `payment_history` table.  `payment_date` is written by
`payment_date.strftime("%Y-%m-%d")`, hence always a well-formed date. -/
structure PaymentRecord where
  payment_id : Nat
  customer_id : Nat
  payment_amount : Rat
  payment_date : Date
deriving DecidableEq, Repr

/-- The database state: both tables plus the AUTOINCREMENT counters. -/
structure Db where
  customers : List Customer
  payment_history : List PaymentRecord
  nextCustomerId : Nat
  nextPaymentId : Nat
deriving DecidableEq, Repr

/-- `add_customer`: unconditional INSERT of a fresh row. -/
def add_customer (name mobile address plan_details : String) (per_month_cost : Rat)
    (internet_renewal_date : DateField) (pending_amount : Rat) (db : Db) : Db :=
  { db with
    customers := db.customers ++
      [{ customer_id := db.nextCustomerId, name := name, mobile := mobile,
         address := address, plan_details := plan_details,
         per_month_cost := per_month_cost,
         internet_renewal_date := internet_renewal_date,
         pending_amount := pending_amount }]
    nextCustomerId := db.nextCustomerId + 1 }

/-- The "Add Customer" form-submit path of `main`: `if submitted and name:`
inserts, `elif submitted:` shows the warning and performs no insert.  The
returned pair is (warning message if any, resulting database). -/
def addCustomerSubmit (name mobile address plan_details : String)
    (per_month_cost : Rat) (internet_renewal_date : DateField)
    (pending_amount : Rat) (db : Db) : Option String × Db :=
  if name = "" then
    (some "Customer name is required.", db)
  else
    (none, add_customer name mobile address plan_details per_month_cost
      internet_renewal_date pending_amount db)

/-- `get_customer_by_id`: `SELECT * FROM customers WHERE customer_id = ?`,
then `iloc[0]` if non-empty, else `None`. -/
def get_customer_by_id (customer_id : Nat) (db : Db) : Option Customer :=
  (db.customers.filter (fun c => c.customer_id == customer_id)).head?

/-- A row of the payment-history query result
(`SELECT ph.customer_id, c.name, ph.payment_amount, ph.payment_date`). -/
structure HistRow where
  customer_id : Nat
  name : String
  payment_amount : Rat
  payment_date : Date
deriving DecidableEq, Repr

/-- `ORDER BY ph.payment_date DESC` comparator: `a` may precede `b` when
`a`'s date is not strictly earlier.  The SQL names no tie-breaker; SQLite's
sorter keeps equal keys in scan (insertion) order, which the stable
insertion sort below reproduces. -/
def histGe (a b : HistRow) : Prop := ¬ dateLt a.payment_date b.payment_date

instance (a b : HistRow) : Decidable (histGe a b) := by
  unfold histGe; infer_instance

instance : IsTotal HistRow histGe :=
  ⟨by
    intro a b
    unfold histGe dateLt
    omega⟩

instance : IsTrans HistRow histGe :=
  ⟨by
    intro a b c hab hbc
    unfold histGe dateLt at *
    omega⟩

/-- `get_payment_history_by_customer_id`: join rows of `payment_history`
with matching key against `customers`, then `ORDER BY ph.payment_date DESC`
(stable sort, ties kept in table order). -/
def get_payment_history_by_customer_id (customer_id : Nat) (db : Db) : List HistRow :=
  List.insertionSort histGe
    ((db.payment_history.filter (fun p => p.customer_id == customer_id)).flatMap
      (fun p =>
        (db.customers.filter (fun c => c.customer_id == p.customer_id)).map
          (fun c =>
            { customer_id := p.customer_id, name := c.name,
              payment_amount := p.payment_amount,
              payment_date := p.payment_date })))

/-- `delete_customer`: DELETE from both tables by customer id. -/
def delete_customer (customer_id : Nat) (db : Db) : Db :=
  { db with
    customers := db.customers.filter (fun c => !(c.customer_id == customer_id))
    payment_history :=
      db.payment_history.filter (fun p => !(p.customer_id == customer_id)) }

/-- Per-row outcome of the rollover loop body of `update_pending_amounts`:
no UPDATE issued, an UPDATE with the new pending amount and renewal date, or
an uncaught exception from `date.replace`. -/
inductive RollResult where
  | skip
  | upd (p : Rat) (f : Date)
  | err
deriving DecidableEq, Repr

/-- The loop body of `update_pending_amounts` for one fetched row: skip a
NULL or unparseable renewal date, and for an overdue parsed date run the
cycle loop and issue an UPDATE when `months_past > 0`. -/
def rollCustomer (today : Date) (c : Customer) : RollResult :=
  match c.internet_renewal_date with
  | DateField.null => RollResult.skip
  | DateField.junk => RollResult.skip
  | DateField.date dt =>
    if dateLt dt today then
      match rollSteps today dt with
      | LoopOut.ok n f =>
        if 0 < n then RollResult.upd (c.pending_amount + c.per_month_cost * (n : Rat)) f
        else RollResult.skip
      | LoopOut.fail => RollResult.err
    else RollResult.skip

/-- The UPDATE issued by the rollover: set pending amount and renewal date
on every row with the given customer id. -/
def applyRollUpdate (db : Db) (customer_id : Nat) (p : Rat) (f : Date) : Db :=
  { db with
    customers := db.customers.map (fun r =>
      if r.customer_id == customer_id then
        { r with pending_amount := p, internet_renewal_date := DateField.date f }
      else r) }

/-- The fetched-rows loop of `update_pending_amounts`: rows were read by one
`fetchall` before the loop, UPDATEs apply to the evolving state, and an
uncaught exception (`none`) aborts the sweep before any commit. -/
def sweep (today : Date) : List Customer → Db → Option Db
  | [], db => some db
  | c :: rest, db =>
    match rollCustomer today c with
    | RollResult.skip => sweep today rest db
    | RollResult.err => none
    | RollResult.upd p f => sweep today rest (applyRollUpdate db c.customer_id p f)

/-- SQL `internet_renewal_date IS NOT NULL` filter of the rollover's SELECT. -/
def nonNullRenewal (c : Customer) : Bool :=
  match c.internet_renewal_date with
  | DateField.null => false
  | _ => true

/-- `update_pending_amounts`: sweep all rows with a non-NULL renewal date;
on an uncaught exception nothing is committed and the state is unchanged. -/
def update_pending_amounts (today : Date) (db : Db) : Db :=
  match sweep today (db.customers.filter nonNullRenewal) db with
  | some db' => db'
  | none => db

/-- `record_payment`: fetch the first row with the id; if present, UPDATE the
pending amount of every row with that id and INSERT one history row, returning
`True`; otherwise return `False` with the state untouched. -/
def record_payment (customer_id : Nat) (amount_paid : Rat) (payment_date : Date)
    (db : Db) : Bool × Db :=
  match (db.customers.filter (fun c => c.customer_id == customer_id)).head? with
  | some c =>
    (true,
      { db with
        customers := db.customers.map (fun r =>
          if r.customer_id == customer_id then
            { r with pending_amount := c.pending_amount - amount_paid }
          else r)
        payment_history := db.payment_history ++
          [{ payment_id := db.nextPaymentId, customer_id := customer_id,
             payment_amount := amount_paid, payment_date := payment_date }]
        nextPaymentId := db.nextPaymentId + 1 })
  | none => (false, db)

/-- The `customers` table as seen by `init_db`: whether the legacy
`bill_date` column is present, the data of the eight retained columns, and
the legacy column's values (meaningful only while the column exists). -/
structure CustomersTable where
  hasBillDate : Bool
  rows : List Customer
  billValues : List Int
deriving DecidableEq, Repr

/-- The on-disk database file handled by `init_db`. -/
structure Store where
  customers : CustomersTable
  payment_history : List PaymentRecord
deriving DecidableEq, Repr

/-- `init_db` on an existing database file: `CREATE TABLE IF NOT EXISTS` is a
no-op on existing tables, and the migration copies the retained columns into a
fresh table and swaps it in exactly when `bill_date` is present. -/
def init_db (s : Store) : Store :=
  if s.customers.hasBillDate then
    { s with customers := { hasBillDate := false, rows := s.customers.rows, billValues := [] } }
  else s

/-- Day count of the proleptic Gregorian calendar up to the start of a month
(non-leap years); used only to state day-distance facts about concrete dates. -/
def cumDays (m : Nat) : Nat :=
  match m with
  | 1 => 0 | 2 => 31 | 3 => 59 | 4 => 90 | 5 => 120 | 6 => 151
  | 7 => 181 | 8 => 212 | 9 => 243 | 10 => 273 | 11 => 304 | 12 => 334
  | _ => 0

/-- Rata-die style day number of a Gregorian date, for stating distances in
days between concrete dates (for example "65 days strictly before today"). -/
def toDays (dt : Date) : Nat :=
  365 * (dt.y - 1) + (dt.y - 1) / 4 - (dt.y - 1) / 100 + (dt.y - 1) / 400 +
    cumDays dt.m + (if 2 < dt.m ∧ isLeap dt.y then 1 else 0) + dt.d

/-- Concrete account for the rollover scenario of the spec: monthly cost 500,
pending balance 0, renewal date 2024-01-10 (65 days strictly before
today = 2024-03-15). -/
def c1cust : Customer :=
  { customer_id := 1, name := "A", mobile := "", address := "", plan_details := "",
    per_month_cost := 500, internet_renewal_date := DateField.date ⟨2024, 1, 10⟩,
    pending_amount := 0 }

def c1db : Db :=
  { customers := [c1cust], payment_history := [], nextCustomerId := 2, nextPaymentId := 1 }

/-- The rollover's result on `c1cust` at today = 2024-03-15. -/
def c1cust' : Customer :=
  { c1cust with pending_amount := 1500, internet_renewal_date := DateField.date ⟨2024, 4, 10⟩ }

/-- Concrete database with two same-day payments for customer 1; the payment
with amount 100 was inserted first (payment_id 1), the one with amount 200
second (payment_id 2). -/
def c4cust : Customer :=
  { customer_id := 1, name := "A", mobile := "", address := "", plan_details := "",
    per_month_cost := 500, internet_renewal_date := DateField.null, pending_amount := 0 }

def c4pay1 : PaymentRecord :=
  { payment_id := 1, customer_id := 1, payment_amount := 100, payment_date := ⟨2024, 5, 1⟩ }

def c4pay2 : PaymentRecord :=
  { payment_id := 2, customer_id := 1, payment_amount := 200, payment_date := ⟨2024, 5, 1⟩ }

def c4db : Db :=
  { customers := [c4cust], payment_history := [c4pay1, c4pay2],
    nextCustomerId := 2, nextPaymentId := 3 }

/-- Concrete database for the payment scenario: one customer, pending 1000. -/
def c3cust : Customer :=
  { customer_id := 1, name := "A", mobile := "", address := "", plan_details := "",
    per_month_cost := 500, internet_renewal_date := DateField.null,
    pending_amount := 1000 }

def c3db : Db :=
  { customers := [c3cust], payment_history := [], nextCustomerId := 2, nextPaymentId := 1 }

def emptyDb : Db :=
  { customers := [], payment_history := [], nextCustomerId := 1, nextPaymentId := 1 }

/-- C5 --- `CreateAccount` (the add-customer form-submit path) with an empty
name always fails with the validation warning and performs no insert: the
whole database, in particular the customers table, is returned unchanged. -/
theorem add_customer_empty_name_rejected :
    ∀ (mobile address plan_details : String) (per_month_cost : Rat)
      (internet_renewal_date : DateField) (pending_amount : Rat) (db : Db),
      addCustomerSubmit "" mobile address plan_details per_month_cost
        internet_renewal_date pending_amount db =
        (some "Customer name is required.", db) := by
  intro mobile address plan_details per_month_cost internet_renewal_date pending_amount db
  simp [addCustomerSubmit]

/-- Projection of every `customers` column except `pending_amount`. -/
def custFrame (c : Customer) :
    Nat × String × String × String × String × Rat × DateField :=
  (c.customer_id, c.name, c.mobile, c.address, c.plan_details,
    c.per_month_cost, c.internet_renewal_date)

/-- C6 --- `record_payment` never changes any account field other than the
pending balance: the name, mobile, address, plan, monthly cost, and renewal
date of every customer row are identical before and after the call. -/
theorem record_payment_frame :
    ∀ (db : Db) (customer_id : Nat) (amount_paid : Rat) (payment_date : Date),
      ((record_payment customer_id amount_paid payment_date db).2.customers).map custFrame =
        db.customers.map custFrame := by
  intro db customer_id amount_paid payment_date
  unfold record_payment
  cases h : (db.customers.filter (fun c => c.customer_id == customer_id)).head? with
  | none => rfl
  | some c =>
    simp only [List.map_map]
    apply List.map_congr_left
    intro r _
    by_cases hid : r.customer_id = customer_id <;> simp [custFrame, hid]

/-- C7 --- after `delete_customer id`: the customer lookup returns none, the
payment history listing is empty (cascade delete), and deleting again (in
particular: deleting a now-nonexistent id) succeeds and changes nothing. -/
theorem delete_customer_spec :
    ∀ (db : Db) (customer_id : Nat),
      get_customer_by_id customer_id (delete_customer customer_id db) = none ∧
      get_payment_history_by_customer_id customer_id (delete_customer customer_id db) = [] ∧
      delete_customer customer_id (delete_customer customer_id db) = delete_customer customer_id db := by
  intro db customer_id
  refine ⟨?_, ?_, ?_⟩
  · simp [get_customer_by_id, delete_customer, List.filter_filter]
  · simp [get_payment_history_by_customer_id, delete_customer, List.filter_filter]
  · simp [delete_customer, List.filter_filter]

/-- C8 --- the startup migration is idempotent: one run of `init_db` leaves a
customers table without the legacy `bill_date` column, preserves the retained
columns' row data and the payment-history table, and a second run is a no-op. -/
theorem init_db_migration_idempotent :
    ∀ s : Store,
      (init_db s).customers.hasBillDate = false ∧
      (init_db s).customers.rows = s.customers.rows ∧
      (init_db s).payment_history = s.payment_history ∧
      init_db (init_db s) = init_db s := by
  intro s
  by_cases h : s.customers.hasBillDate <;> simp [init_db, h]

lemma incMonth_monthsIdx {dt dt' : Date} (hm : dt.m ≤ 12) (h : incMonth dt = some dt') :
    monthsIdx dt' = monthsIdx dt + 1 ∧ dt'.m ≤ 12 ∧ dt'.d = dt.d := by
  unfold incMonth at h
  split_ifs at h with h1 h2 h3 <;>
    first
      | exact Option.noConfusion h
      | (obtain rfl := Option.some.inj h
         refine ⟨?_, ?_, rfl⟩ <;> simp [monthsIdx] <;> omega)

lemma incMonth_dateLt {dt dt' : Date} (h : incMonth dt = some dt') : dateLt dt dt' := by
  unfold incMonth at h
  split_ifs at h with h1 h2 h3 <;>
    first
      | exact Option.noConfusion h
      | (obtain rfl := Option.some.inj h
         simp [dateLt])

lemma dateLt_monthsIdx_le {dt today : Date} (hm : dt.m ≤ 12) (h : dateLt dt today) :
    monthsIdx dt ≤ monthsIdx today := by
  unfold dateLt at h
  unfold monthsIdx
  omega

lemma loopFuel_isSome {today : Date} :
    ∀ (fuel n : Nat) (dt : Date), dt.m ≤ 12 →
      monthsIdx today < monthsIdx dt + fuel →
      (loopFuel fuel n today dt).isSome := by
  intro fuel
  induction fuel with
  | zero =>
    intro n dt hm hlt
    rw [loopFuel]
    by_cases h : dateLt dt today
    · exact absurd (dateLt_monthsIdx_le hm h) (by omega)
    · simp [h]
  | succ fuel ih =>
    intro n dt hm hlt
    rw [loopFuel]
    by_cases h : dateLt dt today
    · rw [if_pos h]
      cases hinc : incMonth dt with
      | none => simp
      | some dt' =>
        obtain ⟨hidx, hm', -⟩ := incMonth_monthsIdx hm hinc
        exact ih (n + 1) dt' hm' (by omega)
    · simp [h]

lemma loopFuel_ok_not_lt {today : Date} :
    ∀ (fuel n : Nat) (dt : Date) (n' : Nat) (f : Date),
      loopFuel fuel n today dt = some (LoopOut.ok n' f) → ¬ dateLt f today := by
  intro fuel
  induction fuel with
  | zero =>
    intro n dt n' f h
    rw [loopFuel] at h
    by_cases hlt : dateLt dt today
    · rw [if_pos hlt] at h
      exact absurd h (by simp)
    · rw [if_neg hlt] at h
      simp only [Option.some.injEq, LoopOut.ok.injEq] at h
      obtain ⟨-, rfl⟩ := h
      exact hlt
  | succ fuel ih =>
    intro n dt n' f h
    rw [loopFuel] at h
    by_cases hlt : dateLt dt today
    · rw [if_pos hlt] at h
      cases hinc : incMonth dt with
      | none =>
        rw [hinc] at h
        exact absurd h (by simp)
      | some dt' =>
        rw [hinc] at h
        exact ih (n + 1) dt' n' f h
    · rw [if_neg hlt] at h
      simp only [Option.some.injEq, LoopOut.ok.injEq] at h
      obtain ⟨-, rfl⟩ := h
      exact hlt

lemma daysInMonth_ge_28 (y m : Nat) : 28 ≤ daysInMonth y m := by
  unfold daysInMonth
  split_ifs <;> omega

lemma incMonth_day28 {dt : Date} (hm : dt.m ≤ 12) (hd : dt.d ≤ 28) :
    ∃ dt', incMonth dt = some dt' ∧ dt'.d = dt.d ∧ dt'.m ≤ 12 ∧
      monthsIdx dt' = monthsIdx dt + 1 := by
  unfold incMonth
  by_cases h : dt.m = 12
  · rw [if_pos h, if_pos (le_trans hd (daysInMonth_ge_28 _ _))]
    refine ⟨⟨dt.y + 1, 1, dt.d⟩, rfl, rfl, ?_, ?_⟩
    · show (1 : Nat) ≤ 12
      omega
    · show 12 * (dt.y + 1) + 1 = 12 * dt.y + dt.m + 1
      omega
  · rw [if_neg h, if_pos (le_trans hd (daysInMonth_ge_28 _ _))]
    refine ⟨⟨dt.y, dt.m + 1, dt.d⟩, rfl, rfl, ?_, ?_⟩
    · show dt.m + 1 ≤ 12
      omega
    · show 12 * dt.y + (dt.m + 1) = 12 * dt.y + dt.m + 1
      omega

lemma loopFuel_day28 {today : Date} :
    ∀ (fuel n : Nat) (dt : Date), dt.m ≤ 12 → dt.d ≤ 28 →
      monthsIdx today < monthsIdx dt + fuel →
      ∃ n' f, loopFuel fuel n today dt = some (LoopOut.ok n' f) ∧ f.d = dt.d := by
  intro fuel
  induction fuel with
  | zero =>
    intro n dt hm hd hlt
    rw [loopFuel]
    by_cases h : dateLt dt today
    · exact absurd (dateLt_monthsIdx_le hm h) (by omega)
    · exact ⟨n, dt, by rw [if_neg h], rfl⟩
  | succ fuel ih =>
    intro n dt hm hd hlt
    rw [loopFuel]
    by_cases h : dateLt dt today
    · rw [if_pos h]
      obtain ⟨dt', hinc, hday, hm', hidx⟩ := incMonth_day28 hm hd
      rw [hinc]
      obtain ⟨n', f, hloop, hfd⟩ := ih (n + 1) dt' hm' (hday ▸ hd) (by omega)
      exact ⟨n', f, hloop, by rw [hfd, hday]⟩
    · exact ⟨n, dt, by rw [if_neg h], rfl⟩

lemma rollSteps_eq {today dt : Date} (hm : dt.m ≤ 12) :
    loopFuel (monthsIdx today + 1 - monthsIdx dt) 0 today dt = some (rollSteps today dt) := by
  have h := @loopFuel_isSome today (monthsIdx today + 1 - monthsIdx dt) 0 dt hm (by omega)
  obtain ⟨r, hr⟩ := Option.isSome_iff_exists.mp h
  rw [hr]
  simp [rollSteps, hr]

lemma rollSteps_ok_not_lt {today dt : Date} {n : Nat} {f : Date}
    (h : rollSteps today dt = LoopOut.ok n f) : ¬ dateLt f today := by
  unfold rollSteps at h
  cases hloop : loopFuel (monthsIdx today + 1 - monthsIdx dt) 0 today dt with
  | none =>
    rw [hloop] at h
    simp at h
  | some r =>
    rw [hloop, Option.getD_some] at h
    subst h
    exact loopFuel_ok_not_lt _ _ _ _ _ hloop

lemma rollCustomer_upd_not_lt {today : Date} {c : Customer} {p : Rat} {f : Date}
    (h : rollCustomer today c = RollResult.upd p f) : ¬ dateLt f today := by
  cases hfield : c.internet_renewal_date with
  | null =>
    rw [show rollCustomer today c = RollResult.skip from by
      simp only [rollCustomer, hfield]] at h
    exact RollResult.noConfusion h
  | junk =>
    rw [show rollCustomer today c = RollResult.skip from by
      simp only [rollCustomer, hfield]] at h
    exact RollResult.noConfusion h
  | date dt =>
    by_cases hlt : dateLt dt today
    · cases hsteps : rollSteps today dt with
      | fail =>
        rw [show rollCustomer today c = RollResult.err from by
          simp only [rollCustomer, hfield, if_pos hlt, hsteps]] at h
        exact RollResult.noConfusion h
      | ok n f' =>
        by_cases hn : 0 < n
        · rw [show rollCustomer today c =
              RollResult.upd (c.pending_amount + c.per_month_cost * (n : Rat)) f' from by
            simp only [rollCustomer, hfield, if_pos hlt, hsteps, if_pos hn]] at h
          simp only [RollResult.upd.injEq] at h
          obtain ⟨-, rfl⟩ := h
          exact rollSteps_ok_not_lt hsteps
        · rw [show rollCustomer today c = RollResult.skip from by
            simp only [rollCustomer, hfield, if_pos hlt, hsteps, if_neg hn]] at h
          exact RollResult.noConfusion h
    · rw [show rollCustomer today c = RollResult.skip from by
        simp only [rollCustomer, hfield, if_neg hlt]] at h
      exact RollResult.noConfusion h

/-- C9 --- the cycle-advance while loop terminates: fuel exceeding the
month-index gap to today is always enough for the loop to return a result
(never exhausting its fuel), each successful calendar-month increment
strictly increases the date, and a normally finished loop always ends at a
date no longer strictly before today. -/
theorem rollover_loop_terminates :
    ∀ (today dt : Date) (fuel n : Nat), dt.Valid →
      (monthsIdx today < monthsIdx dt + fuel → (loopFuel fuel n today dt).isSome) ∧
      (∀ dt', incMonth dt = some dt' → dateLt dt dt') ∧
      (∀ n' f, loopFuel fuel n today dt = some (LoopOut.ok n' f) → ¬ dateLt f today) := by
  intro today dt fuel n hv
  refine ⟨fun hgap => loopFuel_isSome fuel n dt hv.2.1 hgap, ?_, ?_⟩
  · intro dt' hinc
    exact incMonth_dateLt hinc
  · intro n' f h
    exact loopFuel_ok_not_lt fuel n dt n' f h

/-- Witness for the termination theorem at today = 2024-03-15 and renewal
date 2024-01-10 with the fuel `rollSteps` actually uses. -/
theorem rollover_loop_terminates_witness :
    (loopFuel 3 0 ⟨2024, 3, 15⟩ ⟨2024, 1, 10⟩).isSome :=
  (rollover_loop_terminates ⟨2024, 3, 15⟩ ⟨2024, 1, 10⟩ 3 0 (by decide)).1 (by decide)

/-- C10 --- for an account whose renewal date parses and has day-of-month at
most 28, the per-account rollover computation never hits the `ValueError`
of `date.replace` (every calendar-month increment stays valid), and any
update it issues keeps the original day-of-month. -/
theorem rollover_safe_day_le_28 :
    ∀ (today : Date) (c : Customer) (dt : Date),
      c.internet_renewal_date = DateField.date dt → dt.Valid → dt.d ≤ 28 →
      rollCustomer today c ≠ RollResult.err ∧
      (∀ p f, rollCustomer today c = RollResult.upd p f → f.d = dt.d) := by
  intro today c dt hfield hv hd
  have hm : dt.m ≤ 12 := hv.2.1
  obtain ⟨n', f, hloop, hfd⟩ :=
    @loopFuel_day28 today (monthsIdx today + 1 - monthsIdx dt) 0 dt hm hd (by omega)
  have hrs : rollSteps today dt = LoopOut.ok n' f := by
    have h2 := @rollSteps_eq today dt hm
    rw [hloop] at h2
    exact (Option.some.inj h2).symm
  by_cases hlt : dateLt dt today
  · by_cases hn : 0 < n'
    · rw [show rollCustomer today c =
          RollResult.upd (c.pending_amount + c.per_month_cost * (n' : Rat)) f from by
        simp only [rollCustomer, hfield, if_pos hlt, hrs, if_pos hn]]
      refine ⟨by simp, ?_⟩
      intro p f' h
      simp only [RollResult.upd.injEq] at h
      obtain ⟨-, rfl⟩ := h
      exact hfd
    · rw [show rollCustomer today c = RollResult.skip from by
        simp only [rollCustomer, hfield, if_pos hlt, hrs, if_neg hn]]
      exact ⟨by simp, by simp⟩
  · rw [show rollCustomer today c = RollResult.skip from by
      simp only [rollCustomer, hfield, if_neg hlt]]
    exact ⟨by simp, by simp⟩

/-- Witness for the safety theorem on the concrete account `c1cust`
(renewal 2024-01-10, day-of-month 10 which is at most 28). -/
theorem rollover_safe_day_le_28_witness :
    rollCustomer ⟨2024, 3, 15⟩ c1cust ≠ RollResult.err :=
  (rollover_safe_day_le_28 ⟨2024, 3, 15⟩ c1cust ⟨2024, 1, 10⟩ rfl (by decide) (by decide)).1

lemma rollCustomer_skip_of_not_lt {today : Date} {c : Customer} {f : Date}
    (hfield : c.internet_renewal_date = DateField.date f) (hlt : ¬ dateLt f today) :
    rollCustomer today c = RollResult.skip := by
  simp only [rollCustomer, hfield, if_neg hlt]

lemma sweep_all_skip_after {today : Date} :
    ∀ (rows : List Customer) (db db1 : Db),
      sweep today rows db = some db1 →
      (∀ r ∈ db.customers, rollCustomer today r = RollResult.skip ∨ r ∈ rows) →
      ∀ r ∈ db1.customers, rollCustomer today r = RollResult.skip := by
  intro rows
  induction rows with
  | nil =>
    intro db db1 hs hinv r hr
    obtain rfl := Option.some.inj hs
    rcases hinv r hr with h | h
    · exact h
    · exact absurd h (List.not_mem_nil r)
  | cons c rest ih =>
    intro db db1 hs hinv r hr
    rw [sweep] at hs
    cases hc : rollCustomer today c with
    | skip =>
      rw [hc] at hs
      refine ih db db1 hs ?_ r hr
      intro r0 hr0
      rcases hinv r0 hr0 with h | h
      · exact Or.inl h
      · rcases List.mem_cons.mp h with rfl | h2
        · exact Or.inl hc
        · exact Or.inr h2
    | err =>
      rw [hc] at hs
      exact Option.noConfusion hs
    | upd p f =>
      rw [hc] at hs
      refine ih (applyRollUpdate db c.customer_id p f) db1 hs ?_ r hr
      intro r0 hr0
      simp only [applyRollUpdate] at hr0
      obtain ⟨r1, hr1, rfl⟩ := List.mem_map.mp hr0
      by_cases hid : (r1.customer_id == c.customer_id) = true
      · rw [if_pos hid]
        exact Or.inl (rollCustomer_skip_of_not_lt rfl (rollCustomer_upd_not_lt hc))
      · rw [if_neg hid]
        rcases hinv r1 hr1 with h | h
        · exact Or.inl h
        · rcases List.mem_cons.mp h with rfl | h2
          · exact absurd (beq_self_eq_true r1.customer_id) hid
          · exact Or.inr h2

lemma sweep_of_all_skip {today : Date} :
    ∀ (rows : List Customer) (db : Db),
      (∀ r ∈ rows, rollCustomer today r = RollResult.skip) →
      sweep today rows db = some db := by
  intro rows
  induction rows with
  | nil => intro db _; rfl
  | cons c rest ih =>
    intro db h
    have hc := h c (List.mem_cons_self c rest)
    rw [sweep, hc]
    exact ih db (fun r hr => h r (List.mem_cons_of_mem c hr))

/-- C2 --- the rollover sweep is idempotent on a fixed day: running
`update_pending_amounts` twice with the same current date leaves exactly the
state the first run produced, so no account is double-charged. -/
theorem update_pending_amounts_idempotent :
    ∀ (today : Date) (db : Db),
      update_pending_amounts today (update_pending_amounts today db) =
        update_pending_amounts today db := by
  intro today db
  cases hs : sweep today (db.customers.filter nonNullRenewal) db with
  | none =>
    have h1 : update_pending_amounts today db = db := by
      simp only [update_pending_amounts, hs]
    rw [h1, h1]
  | some db1 =>
    have h1 : update_pending_amounts today db = db1 := by
      simp only [update_pending_amounts, hs]
    have hQ : ∀ r ∈ db1.customers, rollCustomer today r = RollResult.skip := by
      refine sweep_all_skip_after (db.customers.filter nonNullRenewal) db db1 hs ?_
      intro r hr
      cases hfield : r.internet_renewal_date with
      | null => exact Or.inl (by simp only [rollCustomer, hfield])
      | junk => exact Or.inr (List.mem_filter.mpr ⟨hr, by simp [nonNullRenewal, hfield]⟩)
      | date dtr => exact Or.inr (List.mem_filter.mpr ⟨hr, by simp [nonNullRenewal, hfield]⟩)
    have h2 : sweep today (db1.customers.filter nonNullRenewal) db1 = some db1 :=
      sweep_of_all_skip _ db1 (fun r hr => hQ r (List.mem_filter.mp hr).1)
    rw [h1]
    simp only [update_pending_amounts, h2]

lemma filter_map_customers (g : Customer → Customer) (p : Customer → Bool)
    (hp : ∀ r, p (g r) = p r) (l : List Customer) :
    (l.map g).filter p = (l.filter p).map g := by
  rw [List.filter_map]
  have hcomp : (p ∘ g) = p := funext hp
  rw [hcomp]

/-- C3 --- `record_payment` of 300 on an existing account with pending
balance 1000 returns success, leaves the account's pending balance at 700,
and appends exactly one payment record with amount 300 and the supplied
date; on a nonexistent id it returns failure and changes nothing. -/
theorem record_payment_spec :
    (∀ (db : Db) (customer_id : Nat) (payment_date : Date) (c : Customer),
      db.customers.filter (fun r => r.customer_id == customer_id) = [c] →
      c.pending_amount = 1000 →
      (record_payment customer_id 300 payment_date db).1 = true ∧
      get_customer_by_id customer_id (record_payment customer_id 300 payment_date db).2 =
        some { c with pending_amount := 700 } ∧
      (record_payment customer_id 300 payment_date db).2.payment_history =
        db.payment_history ++
          [{ payment_id := db.nextPaymentId, customer_id := customer_id,
             payment_amount := 300, payment_date := payment_date }]) ∧
    (∀ (db : Db) (customer_id : Nat) (amount_paid : Rat) (payment_date : Date),
      db.customers.filter (fun r => r.customer_id == customer_id) = [] →
      record_payment customer_id amount_paid payment_date db = (false, db)) := by
  constructor
  · intro db id pd c hfil hpend
    have hhead : (db.customers.filter (fun r => r.customer_id == id)).head? = some c := by
      rw [hfil]
      rfl
    have hcmem : c ∈ db.customers.filter (fun r => r.customer_id == id) := by
      rw [hfil]
      exact List.mem_singleton_self c
    have hc : (c.customer_id == id) = true := (List.mem_filter.mp hcmem).2
    refine ⟨?_, ?_, ?_⟩
    · simp only [record_payment, hhead]
    · simp only [record_payment, hhead, get_customer_by_id]
      rw [filter_map_customers _ _
        (fun r => by by_cases h : (r.customer_id == id) = true <;> simp [h]) db.customers]
      rw [hfil]
      simp only [List.map_cons, List.map_nil, List.head?_cons, Option.some.injEq]
      rw [if_pos hc, hpend]
      simp only [Customer.mk.injEq]
      norm_num
    · simp only [record_payment, hhead]
  · intro db id amt pd hfil
    have hhead : (db.customers.filter (fun r => r.customer_id == id)).head? = none := by
      rw [hfil]
      rfl
    simp only [record_payment, hhead]

/-- Witness for the payment theorem: a concrete account with pending 1000
paid 300, and a lookup miss on an empty database. -/
theorem record_payment_spec_witness :
    (record_payment 1 300 ⟨2024, 5, 1⟩ c3db).1 = true ∧
    record_payment 7 300 ⟨2024, 5, 1⟩ emptyDb = (false, emptyDb) :=
  ⟨(record_payment_spec.1 c3db 1 ⟨2024, 5, 1⟩ c3cust (by decide) (by decide)).1,
   record_payment_spec.2 emptyDb 7 300 ⟨2024, 5, 1⟩ (by decide)⟩

/-- C1 counterexample --- with renewal date 2024-01-10, which is exactly 65
days strictly before today = 2024-03-15, the rollover yields pending balance
1500 (not the claimed 1000) and new renewal date 2024-04-10 (not the claimed
today minus 5 days, 2024-03-10): the code advances by calendar months, and
the loop never stops strictly before today. -/
theorem rollover_65_days_not_two_30_day_cycles :
    toDays ⟨2024, 3, 15⟩ = toDays ⟨2024, 1, 10⟩ + 65 ∧
    dateLt ⟨2024, 1, 10⟩ ⟨2024, 3, 15⟩ ∧
    toDays ⟨2024, 3, 15⟩ = toDays ⟨2024, 3, 10⟩ + 5 ∧
    (update_pending_amounts ⟨2024, 3, 15⟩ c1db).customers = [c1cust'] ∧
    c1cust'.pending_amount = 1500 ∧
    ¬ c1cust'.pending_amount = 1000 ∧
    c1cust'.internet_renewal_date = DateField.date ⟨2024, 4, 10⟩ ∧
    ¬ c1cust'.internet_renewal_date = DateField.date ⟨2024, 3, 10⟩ := by
  refine ⟨by decide, by decide, by decide, ?_, by decide, by decide, by decide, by decide⟩
  simp [update_pending_amounts, sweep, rollCustomer, rollSteps, loopFuel, incMonth,
    monthsIdx, dateLt, daysInMonth, isLeap, applyRollUpdate, nonNullRenewal,
    c1db, c1cust, c1cust']
  norm_num

/-- C1 amended --- same scenario under the calendar-month cycle the code
implements: the loop advances 2024-01-10 by three calendar months to
2024-04-10 (the first advanced date not before today), so the rollover
charges 3 cycles, yielding pending balance 1500 = 0 + 3 * 500 and renewal
date 2024-04-10, which is not strictly before today. -/
theorem rollover_65_days_calendar_months :
    update_pending_amounts ⟨2024, 3, 15⟩ c1db =
      { customers := [c1cust'], payment_history := [],
        nextCustomerId := 2, nextPaymentId := 1 } ∧
    rollSteps ⟨2024, 3, 15⟩ ⟨2024, 1, 10⟩ = LoopOut.ok 3 ⟨2024, 4, 10⟩ ∧
    ¬ dateLt ⟨2024, 4, 10⟩ ⟨2024, 3, 15⟩ := by
  refine ⟨?_, by decide, by decide⟩
  simp [update_pending_amounts, sweep, rollCustomer, rollSteps, loopFuel, incMonth,
    monthsIdx, dateLt, daysInMonth, isLeap, applyRollUpdate, nonNullRenewal,
    c1db, c1cust, c1cust']
  norm_num

/-- C4 counterexample --- with two same-day payments for customer 1, the
earlier-inserted record (payment_id 1, amount 100) comes first in the
listing, not the most-recently-inserted one (payment_id 2, amount 200):
the result is [100, 200] and not the claimed [200, 100]. -/
theorem payment_history_tie_not_newest_first :
    (get_payment_history_by_customer_id 1 c4db).map (fun r => r.payment_amount) =
      [100, 200] ∧
    (get_payment_history_by_customer_id 1 c4db).map (fun r => r.payment_amount) ≠
      [200, 100] := by
  decide

/-- C4 amended --- the listing is sorted by payment date descending
(each row's date is not earlier than the next row's), and records sharing a
payment date appear in insertion order with the earliest-inserted first, as
on the concrete two-same-day-payment database. -/
theorem payment_history_sorted_desc_stable :
    (∀ (customer_id : Nat) (db : Db),
      List.Sorted histGe (get_payment_history_by_customer_id customer_id db)) ∧
    (get_payment_history_by_customer_id 1 c4db).map (fun r => r.payment_amount) =
      [100, 200] := by
  constructor
  · intro customer_id db
    exact List.sorted_insertionSort histGe _
  · decide
